import Mathlib

/-!
Shallow embedding of `src/pso.py`, a particle swarm optimiser.

Modelling choices, dictated by the source:
* numpy 1-D arrays are total functions `ℕ → ℚ` (`Vec`); every claim only ever
  inspects indices `j < dim`.
* numpy arrays are mutable and shared by reference in the source
  (`part.bestPos = part.pos`, `self.globBestPos = part.pos`,
  `part.pos += part.vel`, `part.pos[idx] = ...`), so arrays live in an explicit
  heap mapping references (`ℕ`) to `Vec`; `Particle.posRef`,
  `Particle.bestPosRef` and `PSOState.globBestPosRef` are references into it.
  `Particle.vel` is reassigned with a freshly built array on every update and is
  never aliased, so it is stored as a plain value.
* the global numpy random stream is a function `rand : ℕ → ℚ` together with a
  counter threaded through every operation: `np.random.random(k)` at counter
  `c` reads `rand c, rand (c+1), ..., rand (c+k-1)` and advances the counter
  by `k`.
-/

abbrev Vec := ℕ → ℚ

/-- Store of numpy arrays: contents of every reference, plus the next fresh
reference. -/
structure Heap where
  mem : ℕ → Vec
  fresh : ℕ

def Heap.empty : Heap := ⟨fun _ _ => 0, 0⟩

/-- Overwrite the array behind reference `r` in place. -/
def Heap.write (h : Heap) (r : ℕ) (v : Vec) : Heap :=
  ⟨fun s => if s = r then v else h.mem s, h.fresh⟩

/-- Create a new array and return its reference. -/
def Heap.alloc (h : Heap) (v : Vec) : ℕ × Heap :=
  (h.fresh, ⟨fun s => if s = h.fresh then v else h.mem s, h.fresh + 1⟩)

/-- One particle (the fields the source stores on each `Particle` object in
`PSO.__initPart` / `PSO.update`: `pos`, `vel`, `fitness`, `bestFit`,
`bestPos`). -/
structure Particle where
  posRef : ℕ
  vel : Vec
  fitness : ℚ
  bestFit : ℚ
  bestPosRef : ℕ

instance : Inhabited Particle := ⟨⟨0, fun _ => 0, 0, 0, 0⟩⟩

/-- Fields set up by `PSO.__init__` (src/pso.py lines 46-72) that stay fixed
for the whole run. -/
structure Config where
  problem : Vec → ℚ
  minBound : Vec
  maxBound : Vec
  dim : ℕ
  nPart : ℕ
  epsError : ℚ
  maxGen : ℕ
  w : ℚ
  phiP : ℚ
  phiG : ℚ

/-- The mutable swarm state: `self.Particles`, `self.globBestFit`,
`self.globBestPos` (a reference) and the array heap. -/
structure PSOState where
  particles : List Particle
  globBestFit : ℚ
  globBestPosRef : ℕ
  heap : Heap

/-- A python list of numbers, read as a numpy array (out-of-range reads do not
occur in the claims; `0` is an arbitrary pad). -/
def listToVec (l : List ℚ) : Vec := fun j => l.getD j 0

namespace PSO

/-- Embedding of `PSO.__init__` (src/pso.py lines 46-72).  The body stores the
objective and the two bound arrays verbatim, sets the fixed parameters, and
hard-codes `self.nPart = 100` (line 49), ignoring the `nPart` argument.  It
performs no validation of the bounds and contains no `raise`; the class
`InvalidBoundsError` does not occur anywhere in the source.  Returns the
configuration together with the (untouched) initial-position queue
`self.initPos`. -/
def init (func : Vec → ℚ) (bounds : List ℚ × List ℚ)
    (initPos : Option (List Vec)) (nPartArg : ℕ) : Config × Option (List Vec) :=
  ({ problem := func
     minBound := listToVec bounds.1
     maxBound := listToVec bounds.2
     dim := bounds.1.length
     nPart := 100
     epsError := 1
     maxGen := 500
     w := 0.2
     phiP := 0.2
     phiG := 0.1 }, initPos)

/-- Body of the per-particle loop of `PSO.__initPart` (src/pso.py lines
85-104).  If the initial-position queue is exhausted (`None`), the position is
`np.random.random(dim) * maxBound - minBound` (line 89, note: NOT
`minBound + r*(maxBound-minBound)`); otherwise the next queued row is used and
popped, the queue becoming `None` when emptied.  The velocity is
`np.random.random(dim) * (maxBound - minBound)` scaled by one shared random
sign `[-1.,1.][draw > 0.5]`.  Fitness is the objective at the new position;
`bestFit` starts at `fitness` and `bestPos` is the SAME array as `pos`
(line 104 assigns the reference).  Returns the particle, the heap after
allocating the position array, the remaining queue, and the advanced random
counter. -/
def initOne (cfg : Config) (rand : ℕ → ℚ) (c : ℕ) (h : Heap)
    (ip : Option (List Vec)) : Particle × Heap × Option (List Vec) × ℕ :=
  let pr : Vec × Option (List Vec) × ℕ :=
    match ip with
    | none => (fun j => rand (c + j) * cfg.maxBound j - cfg.minBound j, none, c + cfg.dim)
    | some [] => (fun j => rand (c + j) * cfg.maxBound j - cfg.minBound j, none, c + cfg.dim)
    | some (v :: rest) => (v, if rest.isEmpty then none else some rest, c)
  let c1 := pr.2.2
  let sgn : ℚ := if (0.5 : ℚ) < rand (c1 + cfg.dim) then 1 else -1
  let velv : Vec := fun j => sgn * (rand (c1 + j) * (cfg.maxBound j - cfg.minBound j))
  let a := h.alloc pr.1
  let fit := cfg.problem pr.1
  (⟨a.1, velv, fit, fit, a.1⟩, a.2, pr.2.1, c1 + cfg.dim + 1)

/-- The particle-creation and initialisation loops of `PSO.__initPart`
(src/pso.py lines 80-104), over `n` particles in index order. -/
def initParts (cfg : Config) (rand : ℕ → ℚ) :
    ℕ → ℕ → Heap → Option (List Vec) → List Particle × Heap × Option (List Vec) × ℕ
  | 0, c, h, ip => ([], h, ip, c)
  | n + 1, c, h, ip =>
    let r := initOne cfg rand c h ip
    let rest := initParts cfg rand n r.2.2.2 r.2.1 r.2.2.1
    (r.1 :: rest.1, rest.2.1, rest.2.2.1, rest.2.2.2)

/-- The global-best scan of `PSO.__initPart` (src/pso.py lines 109-112): fold
over all particles, adopting any strictly smaller fitness (and that particle's
position reference). -/
def globScan : List Particle → ℚ × ℕ → ℚ × ℕ
  | [], acc => acc
  | p :: ps, acc =>
    globScan ps (if p.fitness < acc.1 then (p.fitness, p.posRef) else acc)

/-- Embedding of `PSO.__initPart` (src/pso.py lines 75-112): build the swarm,
then seed the global best from particle 0 (lines 107-108, an `IndexError` in
the source when the swarm is empty; the `([], ...)` branch is unreachable for
the source's `nPart = 100`) and scan the whole particle list. -/
def initPart (cfg : Config) (rand : ℕ → ℚ) (c : ℕ) (h : Heap)
    (ip : Option (List Vec)) : PSOState × Option (List Vec) × ℕ :=
  let r := initParts cfg rand cfg.nPart c h ip
  let g :=
    match r.1 with
    | [] => ((0 : ℚ), 0)
    | p :: ps => globScan (p :: ps) (p.fitness, p.posRef)
  (⟨r.1, g.1, g.2, r.2.1⟩, r.2.2.1, r.2.2.2)

/-- The two sequential conditional in-place writes of `PSO.update`
(src/pso.py lines 131-136): coordinates below `minBound` are raised to
`minBound`, then coordinates above `maxBound` are lowered to `maxBound`. -/
def clamp1 (lo hi x : ℚ) : ℚ :=
  if hi < (if x < lo then lo else x) then hi else (if x < lo then lo else x)

/-- Body of the first loop of `PSO.update` (src/pso.py lines 116-139): draw
the two scalars `rP = rand c`, `rG = rand (c+1)` (`np.random.random(2)`),
rebuild the velocity array from the current contents of `pos`, `bestPos` and
`globBestPos`, add it to the position in place, clamp the position in place,
and recompute the fitness at the clamped position. -/
def moveParticle (cfg : Config) (rand : ℕ → ℚ) (gbRef : ℕ) (c : ℕ) (h : Heap)
    (p : Particle) : Particle × Heap × ℕ :=
  let rP := rand c
  let rG := rand (c + 1)
  let pos := h.mem p.posRef
  let best := h.mem p.bestPosRef
  let gb := h.mem gbRef
  let vel' : Vec := fun j =>
    cfg.w * p.vel j + cfg.phiP * rP * (best j - pos j) + cfg.phiG * rG * (gb j - pos j)
  let newPos : Vec := fun j => clamp1 (cfg.minBound j) (cfg.maxBound j) (pos j + vel' j)
  ({ p with vel := vel', fitness := cfg.problem newPos },
    h.write p.posRef newPos, c + 2)

/-- First loop of `PSO.update` over the whole swarm in index order.  The
global-best REFERENCE is fixed for the pass (the source's `self.globBestPos`
is not reassigned there), but the array behind it may move in place. -/
def movePass (cfg : Config) (rand : ℕ → ℚ) (gbRef : ℕ) :
    List Particle → ℕ → Heap → List Particle × Heap × ℕ
  | [], c, h => ([], h, c)
  | p :: ps, c, h =>
    let r := moveParticle cfg rand gbRef c h p
    let rest := movePass cfg rand gbRef ps r.2.2 r.2.1
    (r.1 :: rest.1, rest.2.1, rest.2.2)

/-- Second loop of `PSO.update` (src/pso.py lines 142-151): update each
particle's `bestFit` on strict improvement (NOT its `bestPos`, line 146), and
fold the global best (fitness and position reference) over the swarm. -/
def bestPass : List Particle → ℚ → ℕ → List Particle × ℚ × ℕ
  | [], gf, gr => ([], gf, gr)
  | p :: ps, gf, gr =>
    let p' := if p.fitness < p.bestFit then { p with bestFit := p.fitness } else p
    let g := if p'.fitness < gf then (p'.fitness, p'.posRef) else (gf, gr)
    let rest := bestPass ps g.1 g.2
    (p' :: rest.1, rest.2.1, rest.2.2)

/-- Embedding of `PSO.update` (src/pso.py lines 114-151): move every particle,
then run the best-tracking pass. -/
def update (cfg : Config) (rand : ℕ → ℚ) (c : ℕ) (s : PSOState) : PSOState × ℕ :=
  let m := movePass cfg rand s.globBestPosRef s.particles c s.heap
  let b := bestPass m.1 s.globBestFit s.globBestPosRef
  (⟨b.1, b.2.1, b.2.2, m.2.1⟩, m.2.2)

/-- Embedding of `PSO.finished` (src/pso.py lines 153-157): the returned pair
is the array currently behind `self.globBestPos` and `self.globBestFit`. -/
def finished (s : PSOState) : Vec × ℚ :=
  (s.heap.mem s.globBestPosRef, s.globBestFit)

/-- The `while idx < self.maxGen` loop of `PSO.optimize` (src/pso.py lines
167-179), with the remaining iteration budget as fuel.  The third component
counts the `update` calls performed. -/
def optLoop (cfg : Config) (rand : ℕ → ℚ) : ℕ → PSOState → ℕ → ℕ → PSOState × ℕ × ℕ
  | 0, s, c, k => (s, c, k)
  | n + 1, s, c, k =>
    let u := update cfg rand c s
    if u.1.globBestFit < cfg.epsError then (u.1, u.2, k + 1)
    else optLoop cfg rand n u.1 u.2 (k + 1)

/-- Embedding of `PSO.optimize` (src/pso.py lines 159-182): initialise the
swarm once, loop `update` up to `maxGen` times returning early as soon as
`globBestFit < epsError`, and read out `finished`.  The second component is
the number of `update` calls performed (instrumentation; the source returns
only the pair). -/
def optimize (cfg : Config) (rand : ℕ → ℚ) (ip : Option (List Vec)) :
    (Vec × ℚ) × ℕ :=
  let r := initPart cfg rand 0 Heap.empty ip
  let l := optLoop cfg rand cfg.maxGen r.1 r.2.2 0
  (finished l.1, l.2.2)

end PSO

/-! Concrete instances used by counterexample and witness theorems. -/

/-- Configuration for a 1-dimensional trace: objective `f(x) = x 0`, bounds
`[0, 10]`, a single particle, all other parameters as the constructor sets
them. -/
def cfgA : Config :=
  { problem := fun v => v 0
    minBound := listToVec [0]
    maxBound := listToVec [10]
    dim := 1
    nPart := 1
    epsError := 1
    maxGen := 500
    w := 0.2
    phiP := 0.2
    phiG := 0.1 }

/-- Random stream for the `cfgA` trace: draw 0 is 0.1 (initial velocity
magnitude), draw 1 is 0.9 (velocity sign, giving +1), all later draws are 0
(so `rP = rG = 0` in the first update).  Every value is in `[0, 1)`. -/
def randA : ℕ → ℚ := fun n => if n = 0 then 0.1 else if n = 1 then 0.9 else 0

/-- State after swarm initialisation with the seeded position `[5]`: the one
particle sits at 5 with fitness 5, velocity 1, `bestFit = 5`; the global best
is fitness 5 at that particle's position array. -/
def stateA : PSOState := (PSO.initPart cfgA randA 0 Heap.empty (some [fun _ => 5])).1

/-- Random counter after that initialisation (two draws consumed). -/
def ctrA : ℕ := (PSO.initPart cfgA randA 0 Heap.empty (some [fun _ => 5])).2.2

/-- State after one `update()` on `stateA`: the particle moves to 5.2
(fitness 5.2, worse than 5), so no best record is overwritten — but the
position array, aliased by both best records, has moved in place. -/
def stateA1 : PSOState := (PSO.update cfgA randA ctrA stateA).1

/-- Configuration with bounds `lower = [1]`, `upper = [2]`, objective
constantly 0, a single particle. -/
def cfgB : Config :=
  { problem := fun _ => 0
    minBound := listToVec [1]
    maxBound := listToVec [2]
    dim := 1
    nPart := 1
    epsError := 1
    maxGen := 500
    w := 0.2
    phiP := 0.2
    phiG := 0.1 }

/-- Random stream that always returns 0, a legal value of
`np.random.random`, whose range is `[0, 1)`. -/
def randB : ℕ → ℚ := fun _ => 0

/-- State after swarm initialisation for `cfgB` with no seeded positions, so
the particle's position comes from line 89 of the source. -/
def stateB : PSOState := (PSO.initPart cfgB randB 0 Heap.empty none).1

/-- Configuration the constructor produces for bounds with
`lower[0] = 5 > 1 = upper[0]`. -/
def cfgC : Config := (PSO.init (fun _ => 0) ([5], [1]) none 10).1

/-- A particle whose `bestPos` and `pos` are the same array (reference 0). -/
def pW : Particle := ⟨0, fun _ => 0, 0, 0, 0⟩

namespace PSO

/-! Helper lemmas about the embedding. -/

lemma moveParticle_vel (cfg : Config) (rand : ℕ → ℚ) (gbRef c : ℕ) (h : Heap)
    (p : Particle) (j : ℕ) :
    (moveParticle cfg rand gbRef c h p).1.vel j =
      cfg.w * p.vel j
        + cfg.phiP * rand c * (h.mem p.bestPosRef j - h.mem p.posRef j)
        + cfg.phiG * rand (c + 1) * (h.mem gbRef j - h.mem p.posRef j) := rfl

lemma moveParticle_heap_mem (cfg : Config) (rand : ℕ → ℚ) (gbRef c : ℕ) (h : Heap)
    (p : Particle) (s j : ℕ) :
    ((moveParticle cfg rand gbRef c h p).2.1).mem s j =
      if s = p.posRef
      then clamp1 (cfg.minBound j) (cfg.maxBound j)
        (h.mem p.posRef j + (moveParticle cfg rand gbRef c h p).1.vel j)
      else h.mem s j := by
  by_cases hs : s = p.posRef
  · show (if s = p.posRef then _ else h.mem s) j = _
    rw [if_pos hs, if_pos hs]
    rfl
  · show (if s = p.posRef then _ else h.mem s) j = _
    rw [if_neg hs, if_neg hs]

lemma bestPass_globFit : ∀ (ps : List Particle) (gf : ℚ) (gr : ℕ),
    (bestPass ps gf gr).2.1 = ps.foldl (fun a q => min q.fitness a) gf
  | [], _, _ => rfl
  | p :: ps, gf, gr => by
    have hp : (if p.fitness < p.bestFit then { p with bestFit := p.fitness } else p).fitness
        = p.fitness := by split <;> rfl
    simp only [bestPass, hp, List.foldl_cons]
    rw [bestPass_globFit ps]
    congr 1
    rcases lt_or_le p.fitness gf with h | h
    · rw [if_pos h, min_eq_left h.le]
    · rw [if_neg (not_lt.mpr h), min_eq_right h]

lemma foldl_min_le : ∀ (ps : List Particle) (a : ℚ),
    ps.foldl (fun a q => min q.fitness a) a ≤ a
  | [], a => le_refl a
  | p :: ps, a => le_trans (foldl_min_le ps (min p.fitness a)) (min_le_right _ _)

lemma foldl_min_le_of_mem : ∀ (ps : List Particle) (a : ℚ) (p : Particle), p ∈ ps →
    ps.foldl (fun a q => min q.fitness a) a ≤ p.fitness
  | q :: ps, a, p, hp => by
    rcases List.mem_cons.mp hp with rfl | hp
    · exact le_trans (foldl_min_le ps (min p.fitness a)) (min_le_left _ _)
    · exact foldl_min_le_of_mem ps (min q.fitness a) p hp

lemma foldl_min_attained : ∀ (ps : List Particle) (a : ℚ),
    ps.foldl (fun a q => min q.fitness a) a = a ∨
      ∃ p ∈ ps, ps.foldl (fun a q => min q.fitness a) a = p.fitness
  | [], a => Or.inl rfl
  | p :: ps, a => by
    rcases foldl_min_attained ps (min p.fitness a) with h | ⟨q, hq, h⟩
    · rcases min_cases p.fitness a with ⟨hm, _⟩ | ⟨hm, _⟩
      · exact Or.inr ⟨p, List.mem_cons_self p ps, by rw [List.foldl_cons, h, hm]⟩
      · exact Or.inl (by rw [List.foldl_cons, h, hm])
    · exact Or.inr ⟨q, List.mem_cons_of_mem p hq, by rw [List.foldl_cons, h]⟩

lemma globScan_fit : ∀ (ps : List Particle) (f : ℚ) (r : ℕ),
    (globScan ps (f, r)).1 = ps.foldl (fun a q => min q.fitness a) f
  | [], _, _ => rfl
  | p :: ps, f, r => by
    simp only [globScan, List.foldl_cons]
    rcases lt_or_le p.fitness f with h | h
    · rw [if_pos h, globScan_fit ps, min_eq_left h.le]
    · rw [if_neg (not_lt.mpr h), globScan_fit ps, min_eq_right h]

lemma globScan_stall : ∀ (ps : List Particle) (f : ℚ) (r : ℕ),
    (∀ p ∈ ps, ¬ p.fitness < f) → globScan ps (f, r) = (f, r)
  | [], _, _, _ => rfl
  | p :: ps, f, r, hf => by
    simp only [globScan, if_neg (hf p (List.mem_cons_self p ps))]
    exact globScan_stall ps f r fun q hq => hf q (List.mem_cons_of_mem p hq)

lemma initParts_length (cfg : Config) (rand : ℕ → ℚ) :
    ∀ (n c : ℕ) (h : Heap) (ip : Option (List Vec)),
      (initParts cfg rand n c h ip).1.length = n
  | 0, _, _, _ => rfl
  | n + 1, c, h, ip => by
    simp only [initParts, List.length_cons, initParts_length cfg rand n]

lemma initParts_alias (cfg : Config) (rand : ℕ → ℚ) :
    ∀ (n c : ℕ) (h : Heap) (ip : Option (List Vec)),
      ∀ p ∈ (initParts cfg rand n c h ip).1, p.bestPosRef = p.posRef
  | 0, _, _, _ => by intro p hp; cases hp
  | n + 1, c, h, ip => by
    intro p hp
    simp only [initParts] at hp
    rcases List.mem_cons.mp hp with rfl | hp
    · rfl
    · exact initParts_alias cfg rand n _ _ _ p hp

lemma initPart_globFit_eq (cfg : Config) (rand : ℕ → ℚ) (c : ℕ) (h : Heap)
    (ip : Option (List Vec)) (p : Particle) (ps : List Particle)
    (hps : (initParts cfg rand cfg.nPart c h ip).1 = p :: ps) :
    (initPart cfg rand c h ip).1.globBestFit =
      (p :: ps).foldl (fun a q => min q.fitness a) p.fitness := by
  show (match (initParts cfg rand cfg.nPart c h ip).1 with
    | [] => ((0 : ℚ), 0)
    | p :: ps => globScan (p :: ps) (p.fitness, p.posRef)).1 = _
  rw [hps]
  exact globScan_fit (p :: ps) p.fitness p.posRef

lemma forall2_trans {α β γ : Type _} {R : α → β → Prop} {S : β → γ → Prop}
    {T : α → γ → Prop} (hT : ∀ a b c, R a b → S b c → T a c)
    {l1 : List α} {l2 : List β} {l3 : List γ}
    (h12 : List.Forall₂ R l1 l2) (h23 : List.Forall₂ S l2 l3) :
    List.Forall₂ T l1 l3 := by
  induction h12 generalizing l3 with
  | nil => cases h23; exact List.Forall₂.nil
  | cons hab h12 ih =>
    cases h23 with
    | cons hbc h23 => exact List.Forall₂.cons (hT _ _ _ hab hbc) (ih h23)

lemma forall2_mem_right {α β : Type _} {R : α → β → Prop}
    {l1 : List α} {l2 : List β} (h : List.Forall₂ R l1 l2) :
    ∀ {b}, b ∈ l2 → ∃ a ∈ l1, R a b := by
  induction h with
  | nil => intro b hb; cases hb
  | cons hab h ih =>
    intro b hb
    rcases List.mem_cons.mp hb with rfl | hb
    · exact ⟨_, List.mem_cons_self _ _, hab⟩
    · obtain ⟨a, ha, hR⟩ := ih hb
      exact ⟨a, List.mem_cons_of_mem _ ha, hR⟩

lemma movePass_rel (cfg : Config) (rand : ℕ → ℚ) (gbRef : ℕ) :
    ∀ (ps : List Particle) (c : ℕ) (h : Heap),
      List.Forall₂ (fun p q => q.bestFit = p.bestFit ∧ q.posRef = p.posRef ∧
        q.bestPosRef = p.bestPosRef) ps (movePass cfg rand gbRef ps c h).1
  | [], _, _ => List.Forall₂.nil
  | p :: ps, c, h => by
    simp only [movePass]
    exact List.Forall₂.cons ⟨rfl, rfl, rfl⟩ (movePass_rel cfg rand gbRef ps _ _)

lemma bestPass_rel : ∀ (ps : List Particle) (gf : ℚ) (gr : ℕ),
    List.Forall₂ (fun p q => q.bestFit ≤ p.bestFit ∧ q.posRef = p.posRef ∧
      q.bestPosRef = p.bestPosRef) ps (bestPass ps gf gr).1
  | [], _, _ => List.Forall₂.nil
  | p :: ps, gf, gr => by
    refine List.Forall₂.cons ?_ (bestPass_rel ps _ _)
    by_cases h : p.fitness < p.bestFit
    · rw [if_pos h]
      exact ⟨le_of_lt h, rfl, rfl⟩
    · rw [if_neg h]
      exact ⟨le_refl _, rfl, rfl⟩

lemma clamp1_lo_le (lo hi x : ℚ) (h : lo ≤ hi) : lo ≤ clamp1 lo hi x := by
  unfold clamp1; split_ifs <;> linarith

lemma clamp1_le_hi (lo hi x : ℚ) (h : lo ≤ hi) : clamp1 lo hi x ≤ hi := by
  unfold clamp1; split_ifs <;> linarith

lemma movePass_box (cfg : Config) (rand : ℕ → ℚ) (gbRef : ℕ)
    (hb : ∀ j, j < cfg.dim → cfg.minBound j ≤ cfg.maxBound j) :
    ∀ (ps : List Particle) (c : ℕ) (h : Heap) (R : List ℕ),
      (∀ r ∈ R, ∀ j, j < cfg.dim →
        cfg.minBound j ≤ h.mem r j ∧ h.mem r j ≤ cfg.maxBound j) →
      (∀ r ∈ R, ∀ j, j < cfg.dim →
        cfg.minBound j ≤ (movePass cfg rand gbRef ps c h).2.1.mem r j ∧
          (movePass cfg rand gbRef ps c h).2.1.mem r j ≤ cfg.maxBound j) ∧
      (∀ p' ∈ (movePass cfg rand gbRef ps c h).1, ∀ j, j < cfg.dim →
        cfg.minBound j ≤ (movePass cfg rand gbRef ps c h).2.1.mem p'.posRef j ∧
          (movePass cfg rand gbRef ps c h).2.1.mem p'.posRef j ≤ cfg.maxBound j)
  | [], c, h, R, hR => by
    refine ⟨fun r hr j hj => hR r hr j hj, fun p' hp' => ?_⟩
    cases hp'
  | p :: ps, c, h, R, hR => by
    have hWrite : ∀ r ∈ p.posRef :: R, ∀ j, j < cfg.dim →
        cfg.minBound j ≤ (moveParticle cfg rand gbRef c h p).2.1.mem r j ∧
          (moveParticle cfg rand gbRef c h p).2.1.mem r j ≤ cfg.maxBound j := by
      intro r hr j hj
      rw [moveParticle_heap_mem]
      by_cases hs : r = p.posRef
      · rw [if_pos hs]
        exact ⟨clamp1_lo_le _ _ _ (hb j hj), clamp1_le_hi _ _ _ (hb j hj)⟩
      · rw [if_neg hs]
        rcases List.mem_cons.mp hr with hr | hr
        · exact absurd hr hs
        · exact hR r hr j hj
    obtain ⟨ih1, ih2⟩ := movePass_box cfg rand gbRef hb ps
      (moveParticle cfg rand gbRef c h p).2.2 (moveParticle cfg rand gbRef c h p).2.1
      (p.posRef :: R) hWrite
    refine ⟨fun r hr j hj => ih1 r (List.mem_cons_of_mem _ hr) j hj, ?_⟩
    intro p' hp'
    have hmem : p' ∈ (moveParticle cfg rand gbRef c h p).1 ::
        (movePass cfg rand gbRef ps (moveParticle cfg rand gbRef c h p).2.2
          (moveParticle cfg rand gbRef c h p).2.1).1 := hp'
    rcases List.mem_cons.mp hmem with rfl | hmem
    · exact fun j hj => ih1 p.posRef (List.mem_cons_self _ _) j hj
    · exact ih2 p' hmem

lemma optLoop_count (cfg : Config) (rand : ℕ → ℚ) :
    ∀ (n : ℕ) (s : PSOState) (c k : ℕ), (optLoop cfg rand n s c k).2.2 ≤ k + n
  | 0, _, _, k => Nat.le_refl k
  | n + 1, s, c, k => by
    simp only [optLoop]
    split
    · show k + 1 ≤ k + (n + 1)
      omega
    · exact le_trans (optLoop_count cfg rand n _ _ (k + 1)) (by omega)

lemma initOne_fitness_zero (cfg : Config) (rand : ℕ → ℚ) (c : ℕ) (h : Heap)
    (ip : Option (List Vec)) (hp : ∀ v, cfg.problem v = 0) :
    (initOne cfg rand c h ip).1.fitness = 0 := hp _

lemma initParts_fitness_zero (cfg : Config) (rand : ℕ → ℚ)
    (hp : ∀ v, cfg.problem v = 0) :
    ∀ (n c : ℕ) (h : Heap) (ip : Option (List Vec)),
      ∀ p ∈ (initParts cfg rand n c h ip).1, p.fitness = 0
  | 0, _, _, _ => by intro p hp'; cases hp'
  | n + 1, c, h, ip => by
    intro p hp'
    simp only [initParts] at hp'
    rcases List.mem_cons.mp hp' with rfl | hp'
    · exact initOne_fitness_zero cfg rand c h ip hp
    · exact initParts_fitness_zero cfg rand hp n _ _ _ p hp'

lemma foldl_min_zero : ∀ (ps : List Particle), (∀ p ∈ ps, p.fitness = 0) →
    ps.foldl (fun a q => min q.fitness a) 0 = 0
  | [], _ => rfl
  | p :: ps, h => by
    have h0 : p.fitness = 0 := h p (List.mem_cons_self _ _)
    simp only [List.foldl_cons, h0, min_self]
    exact foldl_min_zero ps fun q hq => h q (List.mem_cons_of_mem _ hq)

lemma initPart_globFit_zero (cfg : Config) (rand : ℕ → ℚ) (c : ℕ) (h : Heap)
    (ip : Option (List Vec)) (hp : ∀ v, cfg.problem v = 0) (hn : 1 ≤ cfg.nPart) :
    (initPart cfg rand c h ip).1.globBestFit = 0 := by
  have hlen := initParts_length cfg rand cfg.nPart c h ip
  rcases hps : (initParts cfg rand cfg.nPart c h ip).1 with _ | ⟨p, ps⟩
  · rw [hps] at hlen
    simp at hlen
    omega
  · have hfit : ∀ q ∈ (initParts cfg rand cfg.nPart c h ip).1, q.fitness = 0 :=
      initParts_fitness_zero cfg rand hp cfg.nPart c h ip
    have hp0 : p.fitness = 0 := hfit p (by rw [hps]; exact List.mem_cons_self _ _)
    have hz : ∀ q ∈ p :: ps, q.fitness = 0 := by
      intro q hq; exact hfit q (by rw [hps]; exact hq)
    rw [initPart_globFit_eq cfg rand c h ip p ps hps, hp0]
    exact foldl_min_zero (p :: ps) hz

lemma movePass_fitness_zero (cfg : Config) (rand : ℕ → ℚ) (gbRef : ℕ)
    (hp : ∀ v, cfg.problem v = 0) :
    ∀ (ps : List Particle) (c : ℕ) (h : Heap),
      ∀ p' ∈ (movePass cfg rand gbRef ps c h).1, p'.fitness = 0
  | [], _, _ => by intro p' hp'; cases hp'
  | p :: ps, c, h => by
    intro p' hp'
    simp only [movePass] at hp'
    rcases List.mem_cons.mp hp' with rfl | hp'
    · exact hp _
    · exact movePass_fitness_zero cfg rand gbRef hp ps _ _ p' hp'

lemma update_globFit_zero (cfg : Config) (rand : ℕ → ℚ) (c : ℕ) (s : PSOState)
    (hp : ∀ v, cfg.problem v = 0) (h0 : s.globBestFit = 0) :
    (update cfg rand c s).1.globBestFit = 0 := by
  show (bestPass (movePass cfg rand s.globBestPosRef s.particles c s.heap).1
    s.globBestFit s.globBestPosRef).2.1 = 0
  rw [bestPass_globFit, h0]
  exact foldl_min_zero _ (movePass_fitness_zero cfg rand s.globBestPosRef hp
    s.particles c s.heap)

end PSO

/-! Claim theorems. -/

/-- Claim C1 is false of the code: a freshly drawn initial position need not
lie in the feasible box.  Line 89 of `src/pso.py` computes
`np.random.random(dim) * maxBound - minBound` where a position uniform in the
box would be `minBound + np.random.random(dim) * (maxBound - minBound)`.
With bounds `lower = [1]`, `upper = [2]` and uniform draw 0 (legal, since
`np.random.random` ranges over `[0,1)`), the particle's only position
coordinate is `0 * 2 - 1 = -1 ∉ [1, 2]`.  This theorem evaluates the
embedding of the initialisation at exactly that input. -/
theorem C1_random_position_escapes_box :
    (stateB.particles.map Particle.posRef) = [0] ∧
    stateB.heap.mem 0 0 = -1 ∧
    ¬ (cfgB.minBound 0 ≤ stateB.heap.mem 0 0 ∧
        stateB.heap.mem 0 0 ≤ cfgB.maxBound 0) := by
  refine ⟨?_, ?_, ?_⟩ <;>
    norm_num [stateB, cfgB, randB, PSO.initPart, PSO.initParts, PSO.initOne,
      PSO.globScan, Heap.alloc, Heap.empty, listToVec]

/-- Claim C2, amended: `globalBestFitness` does equal the minimum fitness
value observed at any particle so far — after initialisation it is the
minimum over the swarm of the initial fitnesses (lower bound plus
attainment below), and after each `update()` it is the minimum of its
previous value and the post-move fitnesses of all particles.  The other half
of the original claim, `objective(globalBestPosition) = globalBestFitness`,
is false of the code (see the corresponding counterexample theorem): the
global best aliases a particle's position array, which later moves in
place. -/
theorem C2_globBestFit_is_min_observed :
    (∀ (cfg : Config) (rand : ℕ → ℚ) (c : ℕ) (h : Heap) (ip : Option (List Vec)),
      (∀ p ∈ (PSO.initPart cfg rand c h ip).1.particles,
        (PSO.initPart cfg rand c h ip).1.globBestFit ≤ p.fitness) ∧
      ((PSO.initPart cfg rand c h ip).1.particles ≠ [] →
        ∃ p ∈ (PSO.initPart cfg rand c h ip).1.particles,
          (PSO.initPart cfg rand c h ip).1.globBestFit = p.fitness))
    ∧ (∀ (cfg : Config) (rand : ℕ → ℚ) (c : ℕ) (s : PSOState),
      (PSO.update cfg rand c s).1.globBestFit =
        ((PSO.movePass cfg rand s.globBestPosRef s.particles c s.heap).1).foldl
          (fun a q => min q.fitness a) s.globBestFit) := by
  constructor
  · intro cfg rand c h ip
    have hpp : (PSO.initPart cfg rand c h ip).1.particles
        = (PSO.initParts cfg rand cfg.nPart c h ip).1 := rfl
    constructor
    · intro p hp
      rw [hpp] at hp
      rcases hps : (PSO.initParts cfg rand cfg.nPart c h ip).1 with _ | ⟨q, qs⟩
      · rw [hps] at hp; cases hp
      · rw [hps] at hp
        rw [PSO.initPart_globFit_eq cfg rand c h ip q qs hps]
        exact PSO.foldl_min_le_of_mem (q :: qs) q.fitness p hp
    · intro hne
      rw [hpp] at hne ⊢
      rcases hps : (PSO.initParts cfg rand cfg.nPart c h ip).1 with _ | ⟨q, qs⟩
      · exact absurd hps hne
      · rw [PSO.initPart_globFit_eq cfg rand c h ip q qs hps]
        rcases PSO.foldl_min_attained (q :: qs) q.fitness with hA | ⟨p, hp, hA⟩
        · exact ⟨q, List.mem_cons_self _ _, hA⟩
        · exact ⟨p, hp, hA⟩
  · intro cfg rand c s
    exact PSO.bestPass_globFit _ _ _

/-- Counterexample to claim C2: run `cfgA`/`randA` from the seeded position
`[5]` (global best fitness 5 at the particle's position array) through one
`update()`.  The particle moves in place to 5.2, a worse position, so the
best records are not overwritten — but `globalBestPosition` aliases the moved
array, so the objective at `globalBestPosition` is now 26/5 ≠ 5 =
`globalBestFitness`, and the pair `finished()` returns is inconsistent. -/
theorem C2_returned_pair_inconsistent :
    cfgA.problem (stateA1.heap.mem stateA1.globBestPosRef) = 26/5 ∧
    stateA1.globBestFit = 5 ∧
    cfgA.problem (stateA1.heap.mem stateA1.globBestPosRef) ≠ stateA1.globBestFit := by
  have h1 : cfgA.problem (stateA1.heap.mem stateA1.globBestPosRef) = 26/5 := by
    norm_num [stateA1, stateA, ctrA, PSO.update, PSO.movePass, PSO.moveParticle,
      PSO.bestPass, PSO.initPart, PSO.initParts, PSO.initOne, PSO.globScan,
      Heap.write, Heap.alloc, Heap.empty, cfgA, randA, listToVec, PSO.clamp1]
  have h2 : stateA1.globBestFit = 5 := by
    norm_num [stateA1, stateA, ctrA, PSO.update, PSO.movePass, PSO.moveParticle,
      PSO.bestPass, PSO.initPart, PSO.initParts, PSO.initOne, PSO.globScan,
      Heap.write, Heap.alloc, Heap.empty, cfgA, randA, listToVec, PSO.clamp1]
  refine ⟨h1, h2, ?_⟩
  rw [h1, h2]
  norm_num

/-- Claim C3, amended: construction performs no validation at all.
`PSO.__init__` stores the two bound arrays, the objective and the
initial-position queue verbatim and never raises; the exception class
`InvalidBoundsError` does not exist in the source, and mismatched lengths or
`lower[i] > upper[i]` are accepted silently (the dimension is taken from the
lower bounds array alone). -/
theorem C3_construction_never_validates (func : Vec → ℚ)
    (bounds : List ℚ × List ℚ) (ip : Option (List Vec)) (n : ℕ) :
    (PSO.init func bounds ip n).1.minBound = listToVec bounds.1 ∧
    (PSO.init func bounds ip n).1.maxBound = listToVec bounds.2 ∧
    (PSO.init func bounds ip n).1.dim = bounds.1.length ∧
    (PSO.init func bounds ip n).2 = ip :=
  ⟨rfl, rfl, rfl, rfl⟩

/-- Counterexample to claim C3: constructing with `lower[0] = 5 > 1 =
upper[0]` succeeds — the claim says it must fail with `InvalidBoundsError` —
producing a configuration that stores the invalid bounds verbatim, on which
swarm initialisation then runs normally and builds its 100 particles. -/
theorem C3_invalid_bounds_accepted :
    cfgC.minBound 0 = 5 ∧ cfgC.maxBound 0 = 1 ∧
    cfgC.maxBound 0 < cfgC.minBound 0 ∧
    (PSO.initPart cfgC randB 0 Heap.empty none).1.particles.length = 100 := by
  refine ⟨by norm_num [cfgC, PSO.init, listToVec],
    by norm_num [cfgC, PSO.init, listToVec],
    by norm_num [cfgC, PSO.init, listToVec], ?_⟩
  show (PSO.initParts cfgC randB cfgC.nPart 0 Heap.empty none).1.length = 100
  rw [PSO.initParts_length]
  rfl

/-- Claim C4, amended: the swarm always contains exactly 100 particles.  The
`nPart` constructor argument (signature default 10) is accepted but ignored —
line 49 hard-codes `self.nPart = 100` — so two constructions differing only
in that argument are identical, and initialisation always builds 100
particles. -/
theorem C4_swarm_always_100 (func : Vec → ℚ) (bounds : List ℚ × List ℚ)
    (ip : Option (List Vec)) (n m : ℕ) (rand : ℕ → ℚ) (c : ℕ) (h : Heap) :
    PSO.init func bounds ip n = PSO.init func bounds ip m ∧
    (PSO.initPart (PSO.init func bounds ip n).1 rand c h
        (PSO.init func bounds ip n).2).1.particles.length = 100 := by
  refine ⟨rfl, ?_⟩
  show (PSO.initParts (PSO.init func bounds ip n).1 rand
      (PSO.init func bounds ip n).1.nPart c h (PSO.init func bounds ip n).2).1.length = 100
  rw [PSO.initParts_length]
  rfl

/-- Counterexample to claim C4: constructing with swarm size 5 still yields a
swarm of 100 particles, not 5 — the caller-supplied value is not used. -/
theorem C4_swarm_size_argument_ignored :
    (PSO.initPart (PSO.init (fun _ => 0) ([0], [10]) none 5).1 randB 0 Heap.empty
        (PSO.init (fun _ => 0) ([0], [10]) none 5).2).1.particles.length = 100 ∧
    (100 : ℕ) ≠ 5 := by
  constructor
  · show (PSO.initParts (PSO.init (fun _ => 0) ([0], [10]) none 5).1 randB
        (PSO.init (fun _ => 0) ([0], [10]) none 5).1.nPart 0 Heap.empty none).1.length = 100
    rw [PSO.initParts_length]
    rfl
  · decide

/-- Claim C5, amended: every particle's `bestFitness` is monotonically
non-increasing across `update()` calls (stated positionally via `Forall₂`
between the swarm before and after one update).  The other half of the
original claim, `bestFitness = objective(bestPosition)` at every point, is
false of the code (see the corresponding counterexample theorem):
`bestPosition` permanently aliases `position`, which moves in place while
`bestFitness` keeps the historical minimum. -/
theorem C5_bestFit_monotone (cfg : Config) (rand : ℕ → ℚ) (c : ℕ) (s : PSOState) :
    List.Forall₂ (fun p q => q.bestFit ≤ p.bestFit) s.particles
      (PSO.update cfg rand c s).1.particles := by
  have h1 := PSO.movePass_rel cfg rand s.globBestPosRef s.particles c s.heap
  have h2 := PSO.bestPass_rel
    (PSO.movePass cfg rand s.globBestPosRef s.particles c s.heap).1
    s.globBestFit s.globBestPosRef
  exact PSO.forall2_trans
    (fun a b c hab hbc => le_trans hbc.1 (le_of_eq hab.1)) h1 h2

/-- Counterexample to claim C5: in the `cfgA`/`randA` trace, after one
`update()` the particle's `bestFit` is still 5 (its fitness rose to 26/5, so
no overwrite), but `bestPos` is the same array as `pos`, which moved in place
to 5.2 — so the objective at `bestPos` is 26/5 ≠ 5 = `bestFit`. -/
theorem C5_bestFit_objective_mismatch :
    (stateA1.particles.headI).bestFit = 5 ∧
    cfgA.problem (stateA1.heap.mem (stateA1.particles.headI).bestPosRef) = 26/5 ∧
    cfgA.problem (stateA1.heap.mem (stateA1.particles.headI).bestPosRef)
      ≠ (stateA1.particles.headI).bestFit := by
  have h1 : (stateA1.particles.headI).bestFit = 5 := by
    norm_num [stateA1, stateA, ctrA, PSO.update, PSO.movePass, PSO.moveParticle,
      PSO.bestPass, PSO.initPart, PSO.initParts, PSO.initOne, PSO.globScan,
      Heap.write, Heap.alloc, Heap.empty, cfgA, randA, listToVec, PSO.clamp1]
  have h2 : cfgA.problem (stateA1.heap.mem (stateA1.particles.headI).bestPosRef) = 26/5 := by
    norm_num [stateA1, stateA, ctrA, PSO.update, PSO.movePass, PSO.moveParticle,
      PSO.bestPass, PSO.initPart, PSO.initParts, PSO.initOne, PSO.globScan,
      Heap.write, Heap.alloc, Heap.empty, cfgA, randA, listToVec, PSO.clamp1]
  refine ⟨h1, h2, ?_⟩
  rw [h1, h2]
  norm_num

/-- Claim C6: `optimize()` initialises the swarm once and then (i) performs
at most `maxGen` calls to `update()`; (ii) stops immediately after the first
`update()` call that brings `globBestFit` below `epsError`, returning
`finished()` of that state; and (iii) in the scenario where the objective is
constantly 0 and the threshold positive, performs exactly one `update()` call
and returns fitness 0. -/
theorem C6_optimize_contract :
    (∀ (cfg : Config) (rand : ℕ → ℚ) (ip : Option (List Vec)),
      (PSO.optimize cfg rand ip).2 ≤ cfg.maxGen)
    ∧ (∀ (cfg : Config) (rand : ℕ → ℚ) (ip : Option (List Vec)),
      1 ≤ cfg.maxGen →
      (PSO.update cfg rand (PSO.initPart cfg rand 0 Heap.empty ip).2.2
          (PSO.initPart cfg rand 0 Heap.empty ip).1).1.globBestFit < cfg.epsError →
      (PSO.optimize cfg rand ip).2 = 1 ∧
        (PSO.optimize cfg rand ip).1 = PSO.finished
          (PSO.update cfg rand (PSO.initPart cfg rand 0 Heap.empty ip).2.2
            (PSO.initPart cfg rand 0 Heap.empty ip).1).1)
    ∧ (∀ (cfg : Config) (rand : ℕ → ℚ) (ip : Option (List Vec)),
      (∀ v, cfg.problem v = 0) → 0 < cfg.epsError → 1 ≤ cfg.maxGen →
      1 ≤ cfg.nPart →
      (PSO.optimize cfg rand ip).1.2 = 0 ∧ (PSO.optimize cfg rand ip).2 = 1) := by
  have early : ∀ (cfg : Config) (rand : ℕ → ℚ) (ip : Option (List Vec)),
      1 ≤ cfg.maxGen →
      (PSO.update cfg rand (PSO.initPart cfg rand 0 Heap.empty ip).2.2
          (PSO.initPart cfg rand 0 Heap.empty ip).1).1.globBestFit < cfg.epsError →
      (PSO.optimize cfg rand ip).2 = 1 ∧
        (PSO.optimize cfg rand ip).1 = PSO.finished
          (PSO.update cfg rand (PSO.initPart cfg rand 0 Heap.empty ip).2.2
            (PSO.initPart cfg rand 0 Heap.empty ip).1).1 := by
    intro cfg rand ip hgen hlt
    obtain ⟨m, hm⟩ : ∃ m, cfg.maxGen = m + 1 := ⟨cfg.maxGen - 1, by omega⟩
    constructor
    · show (PSO.optLoop cfg rand cfg.maxGen (PSO.initPart cfg rand 0 Heap.empty ip).1
          (PSO.initPart cfg rand 0 Heap.empty ip).2.2 0).2.2 = 1
      rw [hm]
      simp only [PSO.optLoop]
      rw [if_pos hlt]
    · show PSO.finished (PSO.optLoop cfg rand cfg.maxGen
          (PSO.initPart cfg rand 0 Heap.empty ip).1
          (PSO.initPart cfg rand 0 Heap.empty ip).2.2 0).1 = _
      rw [hm]
      simp only [PSO.optLoop]
      rw [if_pos hlt]
  refine ⟨?_, early, ?_⟩
  · intro cfg rand ip
    have h := PSO.optLoop_count cfg rand cfg.maxGen
      (PSO.initPart cfg rand 0 Heap.empty ip).1
      (PSO.initPart cfg rand 0 Heap.empty ip).2.2 0
    exact le_trans h (by omega)
  · intro cfg rand ip hp heps hgen hn
    have h0 := PSO.initPart_globFit_zero cfg rand 0 Heap.empty ip hp hn
    have h1 := PSO.update_globFit_zero cfg rand
      (PSO.initPart cfg rand 0 Heap.empty ip).2.2
      (PSO.initPart cfg rand 0 Heap.empty ip).1 hp h0
    have hlt : (PSO.update cfg rand (PSO.initPart cfg rand 0 Heap.empty ip).2.2
        (PSO.initPart cfg rand 0 Heap.empty ip).1).1.globBestFit < cfg.epsError := by
      rw [h1]; exact heps
    obtain ⟨hc, hr⟩ := early cfg rand ip hgen hlt
    refine ⟨?_, hc⟩
    rw [hr]
    exact h1

/-- Witness for claim C6 at a concrete input: for `cfgB` (objective
constantly 0, threshold 1, budget 500, one particle) with the all-zero random
stream, `optimize` performs one update, stays within the budget, and returns
fitness 0. -/
theorem C6_optimize_contract_witness :
    (∀ v, cfgB.problem v = 0) ∧ 0 < cfgB.epsError ∧ 1 ≤ cfgB.maxGen ∧
    1 ≤ cfgB.nPart ∧
    (PSO.optimize cfgB randB none).2 ≤ cfgB.maxGen ∧
    (PSO.optimize cfgB randB none).1.2 = 0 ∧
    (PSO.optimize cfgB randB none).2 = 1 := by
  have hp : ∀ v, cfgB.problem v = 0 := fun v => rfl
  have heps : 0 < cfgB.epsError := by norm_num [cfgB]
  have hgen : 1 ≤ cfgB.maxGen := by norm_num [cfgB]
  have hn : 1 ≤ cfgB.nPart := by norm_num [cfgB]
  obtain ⟨h1, h2⟩ := C6_optimize_contract.2.2 cfgB randB none hp heps hgen hn
  exact ⟨hp, heps, hgen, hn, C6_optimize_contract.1 cfgB randB none, h1, h2⟩

/-- Claim C7: in every `update()` call each particle's new velocity is, per
dimension, `v' = w*v + phiP*rP*(bestPos - pos) + phiG*rG*(globBestPos - pos)`
with the two scalars `rP = rand c` and `rG = rand (c+1)` drawn once per
particle and shared across all dimensions; the position written for the
particle is the clamp of `pos + v'` (so before clamping it is `pos + v'`);
and one pass over the swarm consumes exactly 2 random draws per particle
(never `dim` per particle), as the final counter shows. -/
theorem C7_velocity_update_rule :
    (∀ (cfg : Config) (rand : ℕ → ℚ) (gbRef c : ℕ) (h : Heap) (p : Particle) (j : ℕ),
      (PSO.moveParticle cfg rand gbRef c h p).1.vel j =
        cfg.w * p.vel j
          + cfg.phiP * rand c * (h.mem p.bestPosRef j - h.mem p.posRef j)
          + cfg.phiG * rand (c + 1) * (h.mem gbRef j - h.mem p.posRef j))
    ∧ (∀ (cfg : Config) (rand : ℕ → ℚ) (gbRef c : ℕ) (h : Heap) (p : Particle) (j : ℕ),
      ((PSO.moveParticle cfg rand gbRef c h p).2.1).mem p.posRef j =
        PSO.clamp1 (cfg.minBound j) (cfg.maxBound j)
          (h.mem p.posRef j + (PSO.moveParticle cfg rand gbRef c h p).1.vel j))
    ∧ (∀ (cfg : Config) (rand : ℕ → ℚ) (gbRef : ℕ) (ps : List Particle) (c : ℕ) (h : Heap),
      (PSO.movePass cfg rand gbRef ps c h).2.2 = c + 2 * ps.length) := by
  refine ⟨fun cfg rand gbRef c h p j => PSO.moveParticle_vel cfg rand gbRef c h p j,
    fun cfg rand gbRef c h p j => ?_, ?_⟩
  · rw [PSO.moveParticle_heap_mem, if_pos rfl]
  · intro cfg rand gbRef ps
    induction ps with
    | nil => intro c h; simp [PSO.movePass]
    | cons p ps ih =>
      intro c h
      simp only [PSO.movePass, List.length_cons]
      rw [ih]
      show c + 2 + 2 * ps.length = c + 2 * (ps.length + 1)
      ring

/-- Claim C8: assuming `lower[i] ≤ upper[i]` on all dimensions, after any
`update()` call every dimension of every particle's position lies in
`[lower[i], upper[i]]`; the clamp sends a coordinate below the lower bound to
the lower bound, one above the upper bound to the upper bound, and leaves an
in-range coordinate unchanged; and clamping does not modify the velocity (the
velocity a particle gets does not depend on the bound arrays at all). -/
theorem C8_positions_clamped_into_box (cfg : Config) (rand : ℕ → ℚ) (c : ℕ)
    (s : PSOState) (hb : ∀ j, j < cfg.dim → cfg.minBound j ≤ cfg.maxBound j) :
    (∀ p ∈ (PSO.update cfg rand c s).1.particles, ∀ j, j < cfg.dim →
      cfg.minBound j ≤ (PSO.update cfg rand c s).1.heap.mem p.posRef j ∧
        (PSO.update cfg rand c s).1.heap.mem p.posRef j ≤ cfg.maxBound j)
    ∧ (∀ lo hi x : ℚ, lo ≤ hi →
      (x < lo → PSO.clamp1 lo hi x = lo) ∧ (hi < x → PSO.clamp1 lo hi x = hi) ∧
        (lo ≤ x → x ≤ hi → PSO.clamp1 lo hi x = x))
    ∧ (∀ (lo hi : Vec) (gbRef c' : ℕ) (h : Heap) (p : Particle),
      (PSO.moveParticle { cfg with minBound := lo, maxBound := hi } rand gbRef c' h p).1.vel
        = (PSO.moveParticle cfg rand gbRef c' h p).1.vel) := by
  refine ⟨?_, ?_, fun lo hi gbRef c' h p => rfl⟩
  · intro p hp j hj
    have hrel := PSO.bestPass_rel
      (PSO.movePass cfg rand s.globBestPosRef s.particles c s.heap).1
      s.globBestFit s.globBestPosRef
    have hp' : p ∈ (PSO.bestPass
        (PSO.movePass cfg rand s.globBestPosRef s.particles c s.heap).1
        s.globBestFit s.globBestPosRef).1 := hp
    obtain ⟨q, hq, hqp⟩ := PSO.forall2_mem_right hrel hp'
    have hm := (PSO.movePass_box cfg rand s.globBestPosRef hb s.particles c s.heap []
      (by intro r hr; cases hr)).2 q hq j hj
    show cfg.minBound j ≤
        (PSO.movePass cfg rand s.globBestPosRef s.particles c s.heap).2.1.mem p.posRef j ∧
      (PSO.movePass cfg rand s.globBestPosRef s.particles c s.heap).2.1.mem p.posRef j
        ≤ cfg.maxBound j
    rw [hqp.2.1]
    exact hm
  · intro lo hi x hlohi
    refine ⟨fun hx => ?_, fun hx => ?_, fun h1 h2 => ?_⟩ <;>
      (unfold PSO.clamp1; split_ifs <;> linarith)

/-- Witness for claim C8 at a concrete input: for `cfgB` (bounds `[1]`,
`[2]`) the bound hypothesis holds, and the conclusions are instantiated at
the state after initialisation and, for the clamp characterisation, at
`lo = 0`, `hi = 10` with `x = -3`, `12` and `4`. -/
theorem C8_positions_clamped_into_box_witness :
    (∀ j, j < cfgB.dim → cfgB.minBound j ≤ cfgB.maxBound j) ∧
    (∀ p ∈ (PSO.update cfgB randB 0 stateB).1.particles, ∀ j, j < cfgB.dim →
      cfgB.minBound j ≤ (PSO.update cfgB randB 0 stateB).1.heap.mem p.posRef j ∧
        (PSO.update cfgB randB 0 stateB).1.heap.mem p.posRef j ≤ cfgB.maxBound j) ∧
    PSO.clamp1 0 10 (-3) = 0 ∧ PSO.clamp1 0 10 12 = 10 ∧ PSO.clamp1 0 10 4 = 4 := by
  have hb : ∀ j, j < cfgB.dim → cfgB.minBound j ≤ cfgB.maxBound j := by
    intro j hj
    obtain rfl : j = 0 := Nat.lt_one_iff.mp hj
    simp [cfgB, listToVec]
  have hclamp := (C8_positions_clamped_into_box cfgB randB 0 stateB hb).2.1
  refine ⟨hb, (C8_positions_clamped_into_box cfgB randB 0 stateB hb).1, ?_, ?_, ?_⟩
  · exact (hclamp 0 10 (-3) (by norm_num)).1 (by norm_num)
  · exact (hclamp 0 10 12 (by norm_num)).2.1 (by norm_num)
  · exact (hclamp 0 10 4 (by norm_num)).2.2 (by norm_num) (by norm_num)

/-- Claim C9: `globBestFit` never increases across an `update()` call. -/
theorem C9_globBestFit_nonincreasing (cfg : Config) (rand : ℕ → ℚ) (c : ℕ)
    (s : PSOState) :
    (PSO.update cfg rand c s).1.globBestFit ≤ s.globBestFit := by
  show (PSO.bestPass
    (PSO.movePass cfg rand s.globBestPosRef s.particles c s.heap).1
    s.globBestFit s.globBestPosRef).2.1 ≤ s.globBestFit
  rw [PSO.bestPass_globFit]
  exact PSO.foldl_min_le _ _

/-- Claim C10: after swarm initialisation every particle's `bestPos` is the
same array as its `pos` (same reference); this aliasing is preserved by every
`update()` call (the references are never reassigned); and for an aliased
particle the cognitive term vanishes, so the velocity update degenerates to
`v' = w*v + phiG*rG*(globBestPos - pos)`. -/
theorem C10_bestPos_aliases_pos :
    (∀ (cfg : Config) (rand : ℕ → ℚ) (c : ℕ) (h : Heap) (ip : Option (List Vec)),
      ∀ p ∈ (PSO.initPart cfg rand c h ip).1.particles, p.bestPosRef = p.posRef)
    ∧ (∀ (cfg : Config) (rand : ℕ → ℚ) (c : ℕ) (s : PSOState),
      (∀ p ∈ s.particles, p.bestPosRef = p.posRef) →
      ∀ p ∈ (PSO.update cfg rand c s).1.particles, p.bestPosRef = p.posRef)
    ∧ (∀ (cfg : Config) (rand : ℕ → ℚ) (gbRef c : ℕ) (h : Heap) (p : Particle),
      p.bestPosRef = p.posRef → ∀ j,
        (PSO.moveParticle cfg rand gbRef c h p).1.vel j =
          cfg.w * p.vel j
            + cfg.phiG * rand (c + 1) * (h.mem gbRef j - h.mem p.posRef j)) := by
  refine ⟨?_, ?_, ?_⟩
  · intro cfg rand c h ip p hp
    exact PSO.initParts_alias cfg rand cfg.nPart c h ip p hp
  · intro cfg rand c s hs p hp
    have hrel1 := PSO.movePass_rel cfg rand s.globBestPosRef s.particles c s.heap
    have hrel2 := PSO.bestPass_rel
      (PSO.movePass cfg rand s.globBestPosRef s.particles c s.heap).1
      s.globBestFit s.globBestPosRef
    have hp' : p ∈ (PSO.bestPass
        (PSO.movePass cfg rand s.globBestPosRef s.particles c s.heap).1
        s.globBestFit s.globBestPosRef).1 := hp
    obtain ⟨q, hq, hqp⟩ := PSO.forall2_mem_right hrel2 hp'
    obtain ⟨p0, hp0, hp0q⟩ := PSO.forall2_mem_right hrel1 hq
    rw [hqp.2.2, hp0q.2.2, hs p0 hp0, ← hp0q.2.1, ← hqp.2.1]
  · intro cfg rand gbRef c h p halias j
    rw [PSO.moveParticle_vel, halias, sub_self, mul_zero, add_zero]

/-- Witness for claim C10 at a concrete input: in the `cfgB` run the aliasing
holds after initialisation and after one update, and for the aliased particle
`pW` the velocity formula loses its cognitive term. -/
theorem C10_bestPos_aliases_pos_witness :
    (∀ p ∈ stateB.particles, p.bestPosRef = p.posRef) ∧
    pW.bestPosRef = pW.posRef ∧
    (∀ j, (PSO.moveParticle cfgB randB 0 2 stateB.heap pW).1.vel j =
      cfgB.w * pW.vel j
        + cfgB.phiG * randB (2 + 1) * (stateB.heap.mem 0 j - stateB.heap.mem pW.posRef j)) ∧
    (∀ p ∈ (PSO.update cfgB randB 0 stateB).1.particles, p.bestPosRef = p.posRef) := by
  have h1 : ∀ p ∈ stateB.particles, p.bestPosRef = p.posRef :=
    C10_bestPos_aliases_pos.1 cfgB randB 0 Heap.empty none
  exact ⟨h1, rfl, C10_bestPos_aliases_pos.2.2 cfgB randB 0 2 stateB.heap pW rfl,
    C10_bestPos_aliases_pos.2.1 cfgB randB 0 stateB h1⟩
